import Mathlib

/-!
Shallow embedding of the model-server control plane declared in
`src/modelmanager.hpp` (namespace `ovms`): the registry of models and their
version instances, the version-diff computation, and the reconciliation pass.

The header gives inline bodies for `findModelInstance`, `modelExists` and
`getModels`; those are translated directly.  The remaining members
(`getVersionsToChange`, `loadConfig`, `reloadModelWithVersions`,
`retireModelsRemovedFromConfigFile`, `findModelByName`) are declared there but
their bodies are not part of the given sources, so they are modelled from the
specification, as marked on each definition.
-/

/-- Version identifiers (`model_version_t` in the sources). -/
abbrev model_version_t := Nat

/-- Status codes returned by manager operations (`Status` in the sources). -/
inductive Status where
  | ok
  | fileInvalid
  | jsonInvalid
  | pathInvalid
  deriving DecidableEq

/-- Modelled from the spec: the requested version policy of a `ModelConfig`
("explicit list, \"all\", or \"latest\"", spec section 3). -/
inductive VersionPolicy where
  | all
  | latest
  | specific (versions : List model_version_t)
  deriving DecidableEq

/-- Modelled from the spec: a desired-state record ("model name, base storage
path, requested version policy, and backend-specific parameters opaque to the
core", spec section 3).  `model.hpp` with the real `ModelConfig` is not among
the given sources. -/
structure ModelConfig where
  name : String
  basePath : String
  policy : VersionPolicy
  backendParameters : String
  deriving DecidableEq

/-- Modelled from the spec: lifecycle states of a `ModelInstance`
(spec section 4.3). -/
inductive ModelInstanceState where
  | loading
  | available
  | retiring
  | retired
  | error
  deriving DecidableEq

/-- Modelled from the spec: one loaded version of one model ("owning model
name, version number, a lifecycle state, and an opaque handle", spec
section 3).  The `config` field records the configuration the instance was
loaded with, which is what reload detection compares against. -/
structure ModelInstance where
  name : String
  version : model_version_t
  config : ModelConfig
  state : ModelInstanceState
  deriving DecidableEq

/-- Modelled from the spec: a named model holding a mapping from version to
instance (`ModelEntry`, spec section 3); the C++ side stores
`std::map<model_version_t, std::shared_ptr<ModelInstance>>`, embedded here as
an association list. -/
structure Model where
  name : String
  instances : List (model_version_t × ModelInstance)
  deriving DecidableEq

/-- First-match association-list lookup, the embedding of `std::map::find`. -/
def findEntry {α : Type} [DecidableEq α] {β : Type} (l : List (α × β)) (k : α) : Option β :=
  (l.find? (fun p => decide (p.1 = k))).map Prod.snd

/-- Lookup of one version in a model's version map
(`Model::getModelInstanceByVersion`; `model.hpp` is not among the given
sources, behaviour modelled from the spec's version-map description). -/
def Model.getModelInstanceByVersion (m : Model) (version : model_version_t) : Option ModelInstance :=
  findEntry m.instances version

/-- Modelled from the spec: the default instance is the one with "the maximum
version number among requested versions that reach READY state" (spec
section 4.1), i.e. the highest version in a servable state; `ERROR` instances
are "excluded from default-version selection" (spec section 4.3). -/
def Model.getDefaultModelInstance (m : Model) : Option ModelInstance :=
  let served := m.instances.filter (fun p => decide (p.2.state = ModelInstanceState.available))
  match served.map Prod.fst with
  | [] => none
  | v :: vs => m.getModelInstanceByVersion (vs.foldl max v)

/-- The manager's state: `models`, `configFilename` and `servedModelConfigs`
members of `ModelManager`. -/
structure ModelManager where
  models : List (String × Model)
  configFilename : String
  servedModelConfigs : List ModelConfig
  deriving DecidableEq

/-- Modelled from the spec: `findModelByName` is declared but has no body in
the header; the spec specifies it as `lookupModel(name) -> optional reference
to ModelEntry` over the registry mapping (spec section 4.2). -/
def ModelManager.findModelByName (mm : ModelManager) (name : String) : Option Model :=
  findEntry mm.models name

/-- Direct embedding of the inline body of `ModelManager::modelExists`:
`if (findModelByName(name) == nullptr) return false; else return true;`. -/
def ModelManager.modelExists (mm : ModelManager) (name : String) : Bool :=
  if mm.findModelByName name = none then false else true

/-- Direct embedding of the inline body of `ModelManager::findModelInstance`:
resolve the model by name; `nullptr` when absent; version `0` resolves to the
default instance, otherwise lookup by version. -/
def ModelManager.findModelInstance (mm : ModelManager) (name : String)
    (version : model_version_t) : Option ModelInstance :=
  match mm.findModelByName name with
  | none => none
  | some model =>
    if version = 0 then model.getDefaultModelInstance
    else model.getModelInstanceByVersion version

/-- Direct embedding of `ModelManager::getModels`, which returns a `const`
reference to the `models` member.  A reference to a member is embedded as the
projection function: observing the reference at a later time applies it to the
manager state current at that time. -/
def ModelManager.getModels : ModelManager → List (String × Model) :=
  fun mm => mm.models

/-- Observation through a returned reference: read it against the manager
state current at observation time. -/
def observeRef {α : Type} (r : ModelManager → α) (current : ModelManager) : α :=
  r current

/-- The three output containers of `getVersionsToChange`
(`versionsToRetireIn`, `versionsToReloadIn`, `versionsToStartIn`). -/
structure VersionChanges where
  toRetire : List model_version_t
  toReload : List model_version_t
  toStart : List model_version_t
  deriving DecidableEq

/-- Modelled from the spec: whether a served instance must be reloaded, i.e.
"the on-disk content or configuration for that version changed" since last
load (spec section 4.1); the embedding compares the configuration fingerprint
recorded in the instance at load time against the new configuration. -/
def isReloadRequired (newConfig : ModelConfig) (inst : ModelInstance) : Bool :=
  !(decide (inst.config = newConfig))

/-- Modelled from the spec: the body of `ModelManager::getVersionsToChange` is
not part of the given sources (the header only declares it).  The decision
rule follows spec section 4.1: requested but not served goes to `toStart`;
served and requested with changed content/configuration goes to `toReload`;
served but not requested goes to `toRetire`; served, requested and unchanged
is left alone. -/
def getVersionsToChange (newModelConfig : ModelConfig)
    (modelVersionsInstances : List (model_version_t × ModelInstance))
    (requestedVersions : List model_version_t) : VersionChanges :=
  let current := modelVersionsInstances.map Prod.fst
  { toRetire := current.filter (fun v => !(decide (v ∈ requestedVersions)))
    toReload := requestedVersions.filter (fun v =>
      match modelVersionsInstances.find? (fun p => decide (p.1 = v)) with
      | some p => isReloadRequired newModelConfig p.2
      | none => false)
    toStart := requestedVersions.filter (fun v => !(decide (v ∈ current))) }

/-- Outcome of reading the configuration source
("a sequence of ModelConfig records ... supplied as an already-parsed
structure", spec section 6), with the two whole-configuration failure modes
of spec section 7 (ConfigUnreadable / ConfigMalformed). -/
inductive ConfigSource where
  | missing
  | malformed
  | parsed (modelConfigs : List ModelConfig)

/-- The external collaborators of the core (spec section 6): storage version
discovery, the model backend's load outcome, and the configuration source. -/
structure Environment where
  availableVersions : String → Option (List model_version_t)
  loadOk : String → model_version_t → Bool
  readConfigFile : String → ConfigSource

/-- Modelled from the spec: compute the requested versions "from the config's
version policy intersected with discovered versions" (spec section 4.3
step 2). -/
def requestedFromPolicy (config : ModelConfig) (discovered : List model_version_t) :
    List model_version_t :=
  match config.policy with
  | VersionPolicy.all => discovered
  | VersionPolicy.latest =>
    match discovered with
    | [] => []
    | v :: vs => [vs.foldl max v]
  | VersionPolicy.specific versions => versions.filter (fun v => decide (v ∈ discovered))

/-- Modelled from the spec: constructing and loading a new instance for a
version (spec section 4.3 step 4): on success it becomes `AVAILABLE`, on load
failure the instance is published in `ERROR` state. -/
def loadInstance (env : Environment) (config : ModelConfig) (version : model_version_t) :
    ModelInstance :=
  { name := config.name
    version := version
    config := config
    state := if env.loadOk config.name version then ModelInstanceState.available
             else ModelInstanceState.error }

/-- Modelled from the spec: applying a computed `VersionChanges` to a version
map (spec section 4.3 steps 4 to 6): retired versions are removed, reloaded
versions are swapped for freshly loaded instances, started versions are
loaded and appended. -/
def applyVersionChanges (env : Environment) (config : ModelConfig)
    (instances : List (model_version_t × ModelInstance)) (changes : VersionChanges) :
    List (model_version_t × ModelInstance) :=
  ((instances.filter (fun p => !(decide (p.1 ∈ changes.toRetire)))).map
      (fun p => if p.1 ∈ changes.toReload then (p.1, loadInstance env config p.1) else p)) ++
    changes.toStart.map (fun v => (v, loadInstance env config v))

/-- Modelled from the spec: the net effect of one `reconcileModel` run on a
single registry entry (spec section 4.3): discover versions (an unreachable
base path leaves "the model's previously published state untouched"), compute
the diff, apply it, and remove the entry when it ends with zero versions
(step 7). -/
def reconcileResult (env : Environment) (entry : Option Model) (config : ModelConfig) :
    Option Model :=
  match env.availableVersions config.basePath with
  | none => entry
  | some discovered =>
    let requestedVersions := requestedFromPolicy config discovered
    let model := entry.getD { name := config.name, instances := [] }
    let changes := getVersionsToChange config model.instances requestedVersions
    let newInstances := applyVersionChanges env config model.instances changes
    if newInstances.isEmpty then none
    else some { model with instances := newInstances }

/-- Removal of a registry entry (`removeEntry`, spec section 4.2). -/
def ModelManager.removeEntry (mm : ModelManager) (name : String) : ModelManager :=
  { mm with models := mm.models.filter (fun p => !(decide (p.1 = name))) }

/-- Insertion or replacement of a registry entry (`upsertEntry`, spec
section 4.2). -/
def ModelManager.upsertEntry (mm : ModelManager) (name : String) (model : Model) : ModelManager :=
  { mm with models := mm.models.filter (fun p => !(decide (p.1 = name))) ++ [(name, model)] }

/-- Modelled from the spec: `ModelManager::reloadModelWithVersions` is only
declared in the header ("Reload model versions located in base path"); the
behaviour follows `reconcileModel` of spec section 4.3, publishing the
reconciled entry into the registry. -/
def ModelManager.reloadModelWithVersions (env : Environment) (mm : ModelManager)
    (config : ModelConfig) : Status × ModelManager :=
  match env.availableVersions config.basePath with
  | none => (Status.pathInvalid, mm)
  | some _ =>
    match reconcileResult env (mm.findModelByName config.name) config with
    | none => (Status.ok, mm.removeEntry config.name)
    | some model => (Status.ok, mm.upsertEntry config.name model)

/-- Placeholder configuration used when driving a retired model's lifecycle
controller "with an empty requested-version set" (spec section 4.4); with an
empty requested set no version is started or reloaded, so its contents are
irrelevant. -/
def retirementConfig (name : String) : ModelConfig :=
  { name := name, basePath := "", policy := VersionPolicy.specific [], backendParameters := "" }

/-- Modelled from the spec: the per-entry effect of
`retireModelsRemovedFromConfigFile`: an entry named in the configuration is
kept as is; any other entry is driven with an empty requested-version set and
removed once it ends with zero versions (spec sections 4.3 step 7 and 4.4). -/
def retireEntryIfRemoved (env : Environment) (modelsExistingInConfigFile : List String)
    (entry : String × Model) : Option (String × Model) :=
  if entry.1 ∈ modelsExistingInConfigFile then some entry
  else
    let changes := getVersionsToChange (retirementConfig entry.1) entry.2.instances []
    let newInstances := applyVersionChanges env (retirementConfig entry.1) entry.2.instances changes
    if newInstances.isEmpty then none
    else some (entry.1, { entry.2 with instances := newInstances })

/-- Modelled from the spec: `ModelManager::retireModelsRemovedFromConfigFile`
is only declared in the header ("Retires models non existing in config
file"); spec section 4.4 retires "every model in that difference by driving
its ModelLifecycleController with an empty requested-version set". -/
def ModelManager.retireModelsRemovedFromConfigFile (env : Environment) (mm : ModelManager)
    (modelsExistingInConfigFile : List String) : ModelManager :=
  { mm with models := mm.models.filterMap (retireEntryIfRemoved env modelsExistingInConfigFile) }

/-- Modelled from the spec: one full reconciliation pass (`runOnce`, spec
section 4.4): reconcile every configured model, then retire the models whose
names disappeared from the configuration. -/
def ModelManager.runOnce (env : Environment) (mm : ModelManager) (configs : List ModelConfig) :
    ModelManager :=
  let reconciled := configs.foldl (fun acc config => (acc.reloadModelWithVersions env config).2) mm
  reconciled.retireModelsRemovedFromConfigFile env (configs.map (fun c => c.name))

/-- Modelled from the spec: `ModelManager::loadConfig` is only declared in the
header ("Reads models from configuration file").  A missing or unparsable
configuration "leaves the registry untouched and reports the error" (spec
sections 4.4 and 7); a parsed configuration records the filename and served
configurations and runs a reconciliation pass. -/
def ModelManager.loadConfig (env : Environment) (mm : ModelManager) (jsonFilename : String) :
    Status × ModelManager :=
  match env.readConfigFile jsonFilename with
  | ConfigSource.missing => (Status.fileInvalid, mm)
  | ConfigSource.malformed => (Status.jsonInvalid, mm)
  | ConfigSource.parsed modelConfigs =>
    (Status.ok,
      ModelManager.runOnce env
        { mm with configFilename := jsonFilename, servedModelConfigs := modelConfigs }
        modelConfigs)

/-- Modelled from the spec: the instance swap of a reload, "build the
replacement instance ..., then atomically swap it in for the old one in the
registry" (spec section 4.3 step 5). -/
def Model.reloadSwap (env : Environment) (m : Model) (config : ModelConfig)
    (version : model_version_t) : Model :=
  { m with instances := m.instances.map (fun p =>
      if p.1 = version then (p.1, loadInstance env config version) else p) }

/-- Modelled from the spec: the registry states observable by a concurrent
reader during a reload of one version.  The write-lock discipline of
`modelsMtx` makes each registry mutation atomic ("a writer excludes all
readers for the duration of its critical section", spec section 4.2), so a
reader observes the registry exactly at the boundaries between critical
sections: before the swap or after it; "retirement of an old instance during
a reload is sequenced strictly after the new instance becomes visible" (spec
section 5). -/
def ModelManager.reloadObservableStates (env : Environment) (mm : ModelManager)
    (config : ModelConfig) (version : model_version_t) : List ModelManager :=
  match mm.findModelByName config.name with
  | none => [mm]
  | some m => [mm, mm.upsertEntry config.name (Model.reloadSwap env m config version)]

/-! Helper lemmas about the diff engine and the association-list registry. -/

theorem mem_toStart (config : ModelConfig)
    (instances : List (model_version_t × ModelInstance)) (req : List model_version_t)
    (v : model_version_t) :
    v ∈ (getVersionsToChange config instances req).toStart ↔
      v ∈ req ∧ v ∉ instances.map Prod.fst := by
  simp [getVersionsToChange, List.mem_filter]

theorem mem_toRetire (config : ModelConfig)
    (instances : List (model_version_t × ModelInstance)) (req : List model_version_t)
    (v : model_version_t) :
    v ∈ (getVersionsToChange config instances req).toRetire ↔
      v ∈ instances.map Prod.fst ∧ v ∉ req := by
  simp [getVersionsToChange, List.mem_filter]

theorem mem_toReload (config : ModelConfig)
    (instances : List (model_version_t × ModelInstance)) (req : List model_version_t)
    (v : model_version_t) :
    v ∈ (getVersionsToChange config instances req).toReload ↔
      v ∈ req ∧
        (match instances.find? (fun p => decide (p.1 = v)) with
         | some p => isReloadRequired config p.2
         | none => false) = true := by
  simp [getVersionsToChange, List.mem_filter]

theorem find?_key_filter_ne {α β : Type} [DecidableEq α] (l : List (α × β)) (k k' : α)
    (h : k' ≠ k) :
    (l.filter (fun p => !(decide (p.1 = k)))).find? (fun p => decide (p.1 = k')) =
      l.find? (fun p => decide (p.1 = k')) := by
  induction l with
  | nil => rfl
  | cons p l ih =>
    by_cases hp : p.1 = k
    · have hg : (decide (p.1 = k') : Bool) = false := by
        simp only [decide_eq_false_iff_not]
        intro hh
        exact h (hh ▸ hp)
      have hf : List.filter (fun p => !decide (p.1 = k)) (p :: l) =
          List.filter (fun p => !decide (p.1 = k)) l := by
        simp [List.filter_cons, hp]
      rw [hf, ih, List.find?_cons_of_neg _ (by simp [hg])]
    · have hf : List.filter (fun p => !decide (p.1 = k)) (p :: l) =
          p :: List.filter (fun p => !decide (p.1 = k)) l := by
        simp [List.filter_cons, hp]
      rw [hf]
      by_cases hg : p.1 = k'
      · rw [List.find?_cons_of_pos _ (by simp [hg]), List.find?_cons_of_pos _ (by simp [hg])]
      · rw [List.find?_cons_of_neg _ (by simp [hg]), List.find?_cons_of_neg _ (by simp [hg]),
          ih]

theorem findEntry_filter_ne {α β : Type} [DecidableEq α] (l : List (α × β)) (k k' : α)
    (h : k' ≠ k) :
    findEntry (l.filter (fun p => !(decide (p.1 = k)))) k' = findEntry l k' := by
  unfold findEntry
  rw [find?_key_filter_ne l k k' h]

theorem findModelByName_upsert_self (mm : ModelManager) (name : String) (model : Model) :
    (mm.upsertEntry name model).findModelByName name = some model := by
  unfold ModelManager.upsertEntry ModelManager.findModelByName findEntry
  rw [List.find?_append]
  have h1 : (mm.models.filter (fun p => !(decide (p.1 = name)))).find?
      (fun p => decide (p.1 = name)) = none := by
    rw [List.find?_eq_none]
    intro p hp
    rcases List.mem_filter.mp hp with ⟨_, hkeep⟩
    simpa using hkeep
  simp [h1]

theorem findModelByName_upsert_ne (mm : ModelManager) (name other : String) (model : Model)
    (h : other ≠ name) :
    (mm.upsertEntry name model).findModelByName other = mm.findModelByName other := by
  unfold ModelManager.upsertEntry ModelManager.findModelByName findEntry
  rw [List.find?_append]
  rw [find?_key_filter_ne mm.models name other h]
  have h2 : ([(name, model)].find? (fun p => decide (p.1 = other))) = none := by
    rw [List.find?_eq_none]
    intro p hp
    have hp' : p = (name, model) := by simpa using hp
    subst hp'
    simp only [decide_eq_true_eq]
    exact fun hc => h hc.symm
  rw [h2]
  cases mm.models.find? (fun p => decide (p.1 = other)) <;> rfl

theorem findModelByName_remove_ne (mm : ModelManager) (name other : String)
    (h : other ≠ name) :
    (mm.removeEntry name).findModelByName other = mm.findModelByName other := by
  unfold ModelManager.removeEntry ModelManager.findModelByName findEntry
  rw [find?_key_filter_ne mm.models name other h]

/-! Shared concrete fixtures used by witnesses and counterexamples. -/

def sampleConfig : ModelConfig :=
  { name := "resnet", basePath := "/models/resnet", policy := VersionPolicy.all,
    backendParameters := "" }

def sampleInstance (v : model_version_t) : ModelInstance :=
  { name := "resnet", version := v, config := sampleConfig,
    state := ModelInstanceState.available }

def sampleInstances : List (model_version_t × ModelInstance) := [(1, sampleInstance 1)]

def sampleModel : Model := { name := "resnet", instances := sampleInstances }

def sampleManager : ModelManager :=
  { models := [("resnet", sampleModel)], configFilename := "config.json",
    servedModelConfigs := [sampleConfig] }

def emptyManager : ModelManager :=
  { models := [], configFilename := "", servedModelConfigs := [] }

/-- C1: for every configuration, map of currently served version instances and
list of requested versions, `getVersionsToChange` partitions the versions so
that `toStart` contains no currently served version, every version in
`toRetire` is currently served, no version in `toRetire` is requested, and
every version that is both served and requested lands in exactly one of
no-action and `toReload`. -/
theorem getVersionsToChange_partitions (config : ModelConfig)
    (modelVersionsInstances : List (model_version_t × ModelInstance))
    (requestedVersions : List model_version_t) :
    (∀ v ∈ (getVersionsToChange config modelVersionsInstances requestedVersions).toStart,
        v ∉ modelVersionsInstances.map Prod.fst) ∧
    (∀ v ∈ (getVersionsToChange config modelVersionsInstances requestedVersions).toRetire,
        v ∈ modelVersionsInstances.map Prod.fst) ∧
    (∀ v ∈ (getVersionsToChange config modelVersionsInstances requestedVersions).toRetire,
        v ∉ requestedVersions) ∧
    (∀ v, v ∈ modelVersionsInstances.map Prod.fst → v ∈ requestedVersions →
        Xor' (v ∈ (getVersionsToChange config modelVersionsInstances requestedVersions).toReload)
          (v ∉ (getVersionsToChange config modelVersionsInstances requestedVersions).toStart ∧
            v ∉ (getVersionsToChange config modelVersionsInstances requestedVersions).toReload ∧
            v ∉ (getVersionsToChange config modelVersionsInstances requestedVersions).toRetire)) := by
  refine ⟨?_, ?_, ?_, ?_⟩
  · intro v hv
    exact ((mem_toStart config modelVersionsInstances requestedVersions v).mp hv).2
  · intro v hv
    exact ((mem_toRetire config modelVersionsInstances requestedVersions v).mp hv).1
  · intro v hv
    exact ((mem_toRetire config modelVersionsInstances requestedVersions v).mp hv).2
  · intro v hcur hreq
    by_cases hrel :
        v ∈ (getVersionsToChange config modelVersionsInstances requestedVersions).toReload
    · exact Or.inl ⟨hrel, fun hno => hno.2.1 hrel⟩
    · refine Or.inr ⟨⟨?_, hrel, ?_⟩, hrel⟩
      · intro hs
        exact ((mem_toStart config modelVersionsInstances requestedVersions v).mp hs).2 hcur
      · intro hr
        exact ((mem_toRetire config modelVersionsInstances requestedVersions v).mp hr).2 hreq

/-- Witness for C1 at a concrete input: version 2 is requested but not served,
so the partition theorem puts it outside the served set. -/
theorem getVersionsToChange_partitions_witness :
    (2 : model_version_t) ∉ sampleInstances.map Prod.fst :=
  (getVersionsToChange_partitions sampleConfig sampleInstances [2]).1 2 (by decide)

/-- C2: for every configuration and non-empty currently served map, an empty
requested-version list makes `getVersionsToChange` retire exactly the whole
served set and start or reload nothing. -/
theorem getVersionsToChange_empty_requested (config : ModelConfig)
    (modelVersionsInstances : List (model_version_t × ModelInstance))
    (_hnonempty : modelVersionsInstances ≠ []) :
    (getVersionsToChange config modelVersionsInstances []).toRetire =
      modelVersionsInstances.map Prod.fst ∧
    (getVersionsToChange config modelVersionsInstances []).toReload = [] ∧
    (getVersionsToChange config modelVersionsInstances []).toStart = [] := by
  refine ⟨?_, rfl, rfl⟩
  simp [getVersionsToChange]

/-- Witness for C2 at a concrete non-empty served map. -/
theorem getVersionsToChange_empty_requested_witness :
    (getVersionsToChange sampleConfig sampleInstances []).toRetire =
      sampleInstances.map Prod.fst ∧
    (getVersionsToChange sampleConfig sampleInstances []).toReload = [] ∧
    (getVersionsToChange sampleConfig sampleInstances []).toStart = [] :=
  getVersionsToChange_empty_requested sampleConfig sampleInstances (by decide)

/-- C10: `modelExists` returns `true` exactly when `findModelByName` returns a
non-null result; it never errors and adds no behaviour beyond that
equivalence. -/
theorem modelExists_iff_findModelByName (mm : ModelManager) (name : String) :
    mm.modelExists name = true ↔ mm.findModelByName name ≠ none := by
  by_cases h : mm.findModelByName name = none <;> simp [ModelManager.modelExists, h]

/-- Witness for C10 at a concrete registry holding the model. -/
theorem modelExists_iff_findModelByName_witness :
    sampleManager.modelExists "resnet" = true :=
  (modelExists_iff_findModelByName sampleManager "resnet").mpr (by decide)

/-- C3: `findModelInstance(name, 0)` returns the model's default instance when
the model exists, `findModelInstance(name, v)` with `v > 0` returns the
instance registered under version `v`, and an absent name yields the
not-found value (`none`, the embedding of `nullptr`), never an error. -/
theorem findModelInstance_resolution (mm : ModelManager) (name : String)
    (version : model_version_t) :
    (∀ model, mm.findModelByName name = some model →
      mm.findModelInstance name 0 = model.getDefaultModelInstance ∧
      (0 < version →
        mm.findModelInstance name version = model.getModelInstanceByVersion version)) ∧
    (mm.findModelByName name = none → mm.findModelInstance name version = none) := by
  constructor
  · intro model h
    constructor
    · simp [ModelManager.findModelInstance, h]
    · intro hv
      have hne : version ≠ 0 := Nat.pos_iff_ne_zero.mp hv
      simp [ModelManager.findModelInstance, h, hne]
  · intro h
    simp [ModelManager.findModelInstance, h]

/-- Witness for C3 at a concrete registry: version 1 of `"resnet"` resolves
through the version map. -/
theorem findModelInstance_resolution_witness :
    sampleManager.findModelInstance "resnet" 1 = sampleModel.getModelInstanceByVersion 1 :=
  ((findModelInstance_resolution sampleManager "resnet" 1).1 sampleModel (by decide)).2
    (by decide)

/-- C9 counterexample: `getModels` returns a reference to the live `models`
member, so a mutation performed after the call is visible through the returned
reference; the collection observed through it is not a snapshot of the
registry at the moment of the call. -/
theorem getModels_snapshot_counterexample :
    observeRef ModelManager.getModels (emptyManager.upsertEntry "resnet" sampleModel) ≠
      observeRef ModelManager.getModels emptyManager := by
  decide

/-- C9 (amended): `getModels` is a read of the full model directory through a
reference to the live registry: at the moment of the call it yields exactly
the registry's current collection, and registry mutations performed after the
call are visible through the returned reference (here: a model upserted after
the call is found in the observed collection). -/
theorem getModels_live_reference (mm : ModelManager) (name : String) (model : Model) :
    observeRef ModelManager.getModels mm = mm.models ∧
    findEntry (observeRef ModelManager.getModels (mm.upsertEntry name model)) name =
      some model := by
  refine ⟨rfl, ?_⟩
  have h := findModelByName_upsert_self mm name model
  unfold ModelManager.findModelByName at h
  exact h

/-- Environment fixture in which the configuration file cannot be read. -/
def missingConfigEnv : Environment :=
  { availableVersions := fun _ => some [1]
    loadOk := fun _ _ => true
    readConfigFile := fun _ => ConfigSource.missing }

/-- C5: when `loadConfig` fails to read or parse the configuration (missing
file or parse failure) it returns a non-ok status and the manager state —
models map, served configurations and all — is exactly what it was before the
call. -/
theorem loadConfig_failure_preserves_state (env : Environment) (mm : ModelManager)
    (jsonFilename : String)
    (h : env.readConfigFile jsonFilename = ConfigSource.missing ∨
      env.readConfigFile jsonFilename = ConfigSource.malformed) :
    (ModelManager.loadConfig env mm jsonFilename).2 = mm ∧
    (ModelManager.loadConfig env mm jsonFilename).1 ≠ Status.ok := by
  rcases h with h | h <;> simp [ModelManager.loadConfig, h]

/-- Witness for C5: a concretely missing configuration file leaves a concrete
manager untouched. -/
theorem loadConfig_failure_preserves_state_witness :
    (ModelManager.loadConfig missingConfigEnv sampleManager "config.json").2 = sampleManager ∧
    (ModelManager.loadConfig missingConfigEnv sampleManager "config.json").1 ≠ Status.ok :=
  loadConfig_failure_preserves_state missingConfigEnv sampleManager "config.json"
    (Or.inl rfl)

theorem find?_map_key {β : Type} (l : List (model_version_t × β))
    (g : model_version_t × β → model_version_t × β)
    (hg : ∀ p, (g p).1 = p.1) (v : model_version_t) :
    (l.map g).find? (fun p => decide (p.1 = v)) =
      (l.find? (fun p => decide (p.1 = v))).map g := by
  induction l with
  | nil => rfl
  | cons p l ih =>
    by_cases hp : p.1 = v
    · rw [List.map_cons, List.find?_cons_of_pos _ (by simp [hg, hp]),
        List.find?_cons_of_pos _ (by simp [hp])]
      rfl
    · rw [List.map_cons, List.find?_cons_of_neg _ (by simp [hg, hp]),
        List.find?_cons_of_neg _ (by simp [hp]), ih]

/-- C7: during a reload of a version, every registry state observable
concurrently with the instance swap resolves a lookup of that version to
either the pre-reload instance or the post-reload instance — never to the
not-found value. -/
theorem reload_no_visibility_gap (env : Environment) (mm : ModelManager)
    (config : ModelConfig) (version : model_version_t) (old : ModelInstance)
    (hv : version ≠ 0)
    (hold : mm.findModelInstance config.name version = some old) :
    ∀ s ∈ mm.reloadObservableStates env config version,
      s.findModelInstance config.name version = some old ∨
      s.findModelInstance config.name version = some (loadInstance env config version) := by
  intro s hs
  cases hm : mm.findModelByName config.name with
  | none =>
    rw [ModelManager.findModelInstance, hm] at hold
    exact absurd hold (by simp)
  | some m =>
    have hbyv : m.getModelInstanceByVersion version = some old := by
      rw [ModelManager.findModelInstance, hm] at hold
      simpa [hv] using hold
    rw [ModelManager.reloadObservableStates, hm] at hs
    simp only [List.mem_cons, List.not_mem_nil, or_false] at hs
    rcases hs with rfl | rfl
    · exact Or.inl hold
    · refine Or.inr ?_
      rw [ModelManager.findModelInstance, findModelByName_upsert_self]
      have hswap : (Model.reloadSwap env m config version).getModelInstanceByVersion version =
          some (loadInstance env config version) := by
        unfold Model.reloadSwap Model.getModelInstanceByVersion findEntry at *
        rw [find?_map_key _ _ (fun p => by by_cases hp : p.1 = version <;> simp [hp]) version]
        obtain ⟨q, hq⟩ : ∃ q, m.instances.find? (fun p => decide (p.1 = version)) = some q := by
          cases hfq : m.instances.find? (fun p => decide (p.1 = version)) with
          | none => rw [hfq] at hbyv; exact absurd hbyv (by simp)
          | some q => exact ⟨q, rfl⟩
        have hq1 : q.1 = version := by
          have := List.find?_some hq
          simpa using this
        rw [hq]
        simp [hq1]
      simpa [hv] using hswap

/-- Witness for C7: the two observable states of a concrete reload both
resolve version 1 of `"resnet"`. -/
theorem reload_no_visibility_gap_witness :
    sampleManager.findModelInstance "resnet" 1 = some (sampleInstance 1) ∨
    sampleManager.findModelInstance "resnet" 1 =
      some (loadInstance missingConfigEnv sampleConfig 1) :=
  reload_no_visibility_gap missingConfigEnv sampleManager sampleConfig 1 (sampleInstance 1)
    (by decide) (by decide) sampleManager (by simp [ModelManager.reloadObservableStates]; decide)

theorem applyVersionChanges_nil_requested (env : Environment) (config : ModelConfig)
    (instances : List (model_version_t × ModelInstance)) :
    applyVersionChanges env config instances (getVersionsToChange config instances []) = [] := by
  unfold applyVersionChanges
  have h0 : instances.filter
      (fun p => !(decide (p.1 ∈ (getVersionsToChange config instances []).toRetire))) = [] := by
    rw [List.filter_eq_nil_iff]
    intro p hp
    simp only [Bool.not_eq_true', decide_eq_false_iff_not, not_not]
    exact (mem_toRetire config instances [] p.1).mpr
      ⟨List.mem_map_of_mem Prod.fst hp, List.not_mem_nil p.1⟩
  rw [h0]
  rfl

theorem retireEntryIfRemoved_not_mem (env : Environment) (names : List String)
    (p : String × Model) (h : p.1 ∉ names) :
    retireEntryIfRemoved env names p = none := by
  unfold retireEntryIfRemoved
  rw [if_neg h]
  simp [applyVersionChanges_nil_requested]

theorem retireEntryIfRemoved_key (env : Environment) (names : List String)
    (p q : String × Model) (h : retireEntryIfRemoved env names p = some q) :
    q.1 = p.1 := by
  unfold retireEntryIfRemoved at h
  by_cases hm : p.1 ∈ names
  · rw [if_pos hm] at h
    rw [← Option.some.inj h]
  · rw [if_neg hm] at h
    simp only [] at h
    split at h
    · exact absurd h (by simp)
    · rw [← Option.some.inj h]

theorem find?_filterMap_keep (env : Environment) (names : List String) (name : String)
    (h : name ∈ names) (l : List (String × Model)) :
    (l.filterMap (retireEntryIfRemoved env names)).find? (fun p => decide (p.1 = name)) =
      l.find? (fun p => decide (p.1 = name)) := by
  induction l with
  | nil => rfl
  | cons p l ih =>
    rw [List.filterMap_cons]
    cases hf : retireEntryIfRemoved env names p with
    | none =>
      by_cases hp : p.1 = name
      · exfalso
        unfold retireEntryIfRemoved at hf
        rw [if_pos (by rw [hp]; exact h)] at hf
        exact Option.noConfusion hf
      · rw [List.find?_cons_of_neg _ (by simp [hp])]
        exact ih
    | some q =>
      have hq1 : q.1 = p.1 := retireEntryIfRemoved_key env names p q hf
      by_cases hp : p.1 = name
      · have hqp : q = p := by
          unfold retireEntryIfRemoved at hf
          rw [if_pos (by rw [hp]; exact h)] at hf
          exact (Option.some.inj hf).symm
        subst hqp
        rw [List.find?_cons_of_pos _ (by simp [hp]), List.find?_cons_of_pos _ (by simp [hp])]
      · rw [List.find?_cons_of_neg _ (by simp [hq1, hp]),
          List.find?_cons_of_neg _ (by simp [hp]), ih]

theorem find?_filterMap_drop (env : Environment) (names : List String) (name : String)
    (h : name ∉ names) (l : List (String × Model)) :
    (l.filterMap (retireEntryIfRemoved env names)).find? (fun p => decide (p.1 = name)) =
      none := by
  rw [List.find?_eq_none]
  intro q hq
  rcases List.mem_filterMap.mp hq with ⟨p, hpl, hf⟩
  have hq1 : q.1 = p.1 := retireEntryIfRemoved_key env names p q hf
  simp only [decide_eq_true_eq]
  intro hqname
  have hpname : p.1 = name := by rw [← hq1, hqname]
  have hnone : retireEntryIfRemoved env names p = none :=
    retireEntryIfRemoved_not_mem env names p (by rw [hpname]; exact h)
  rw [hnone] at hf
  exact Option.noConfusion hf

theorem findModelByName_retire_mem (env : Environment) (mm : ModelManager)
    (names : List String) (name : String) (h : name ∈ names) :
    (mm.retireModelsRemovedFromConfigFile env names).findModelByName name =
      mm.findModelByName name := by
  unfold ModelManager.retireModelsRemovedFromConfigFile ModelManager.findModelByName findEntry
  rw [find?_filterMap_keep env names name h mm.models]

theorem findModelByName_retire_not_mem (env : Environment) (mm : ModelManager)
    (names : List String) (name : String) (h : name ∉ names) :
    (mm.retireModelsRemovedFromConfigFile env names).findModelByName name = none := by
  unfold ModelManager.retireModelsRemovedFromConfigFile ModelManager.findModelByName findEntry
  rw [find?_filterMap_drop env names name h mm.models]
  rfl

theorem findModelByName_remove_self (mm : ModelManager) (name : String) :
    (mm.removeEntry name).findModelByName name = none := by
  unfold ModelManager.removeEntry ModelManager.findModelByName findEntry
  have h : (mm.models.filter (fun p => !(decide (p.1 = name)))).find?
      (fun p => decide (p.1 = name)) = none := by
    rw [List.find?_eq_none]
    intro p hp
    rcases List.mem_filter.mp hp with ⟨_, hkeep⟩
    simpa using hkeep
  rw [h]
  rfl

theorem findModelByName_reload_self (env : Environment) (mm : ModelManager)
    (config : ModelConfig) :
    ((mm.reloadModelWithVersions env config).2).findModelByName config.name =
      reconcileResult env (mm.findModelByName config.name) config := by
  unfold ModelManager.reloadModelWithVersions
  cases hav : env.availableVersions config.basePath with
  | none => simp [reconcileResult, hav]
  | some discovered =>
    cases hrc : reconcileResult env (mm.findModelByName config.name) config with
    | none => simp [hav, hrc, findModelByName_remove_self]
    | some model => simp [hav, hrc, findModelByName_upsert_self]

theorem findModelByName_reload_ne (env : Environment) (mm : ModelManager)
    (config : ModelConfig) (other : String) (h : other ≠ config.name) :
    ((mm.reloadModelWithVersions env config).2).findModelByName other =
      mm.findModelByName other := by
  unfold ModelManager.reloadModelWithVersions
  cases hav : env.availableVersions config.basePath with
  | none => simp [hav]
  | some discovered =>
    cases hrc : reconcileResult env (mm.findModelByName config.name) config with
    | none => simp [hav, hrc, findModelByName_remove_ne mm config.name other h]
    | some model => simp [hav, hrc, findModelByName_upsert_ne mm config.name other model h]

theorem findModelByName_fold_frame (env : Environment) (configs : List ModelConfig)
    (mm : ModelManager) (name : String) (h : name ∉ configs.map (fun c => c.name)) :
    (configs.foldl (fun acc config => (acc.reloadModelWithVersions env config).2)
      mm).findModelByName name = mm.findModelByName name := by
  induction configs generalizing mm with
  | nil => rfl
  | cons c cs ih =>
    have h' : name ≠ c.name ∧ name ∉ cs.map (fun c => c.name) := by
      simpa [not_or] using h
    rw [List.foldl_cons, ih _ h'.2, findModelByName_reload_ne env mm c name h'.1]

theorem findModelByName_fold_mem (env : Environment) (configs : List ModelConfig)
    (mm : ModelManager) (config : ModelConfig) (hmem : config ∈ configs)
    (hnodup : (configs.map (fun c => c.name)).Nodup) :
    (configs.foldl (fun acc c => (acc.reloadModelWithVersions env c).2)
      mm).findModelByName config.name =
      reconcileResult env (mm.findModelByName config.name) config := by
  induction configs generalizing mm with
  | nil => exact absurd hmem (List.not_mem_nil config)
  | cons c cs ih =>
    have hnd := List.nodup_cons.mp (by rw [List.map_cons] at hnodup; exact hnodup)
    rw [List.foldl_cons]
    rcases List.mem_cons.mp hmem with rfl | hmem'
    · have hnot : config.name ∉ cs.map (fun c => c.name) := hnd.1
      rw [findModelByName_fold_frame env cs _ config.name hnot,
        findModelByName_reload_self env mm config]
    · have hne : config.name ≠ c.name := by
        intro hh
        exact hnd.1 (by rw [← hh]; exact List.mem_map_of_mem _ hmem')
      rw [ih _ hmem' hnd.2, findModelByName_reload_ne env mm c config.name hne]

theorem findModelByName_runOnce_mem (env : Environment) (mm : ModelManager)
    (configs : List ModelConfig) (config : ModelConfig) (hmem : config ∈ configs)
    (hnodup : (configs.map (fun c => c.name)).Nodup) :
    (mm.runOnce env configs).findModelByName config.name =
      reconcileResult env (mm.findModelByName config.name) config := by
  unfold ModelManager.runOnce
  rw [findModelByName_retire_mem env _ _ config.name (List.mem_map_of_mem _ hmem)]
  exact findModelByName_fold_mem env configs mm config hmem hnodup

/-- C6: after a reconciliation pass in which a previously served model's name
is absent from the configuration, the model is absent from the registry:
`findModelByName` returns the not-found value, `modelExists` is false, and no
version instance of it is reachable through `findModelInstance`. -/
theorem runOnce_retires_removed_models (env : Environment) (mm : ModelManager)
    (configs : List ModelConfig) (name : String)
    (h : name ∉ configs.map (fun c => c.name)) :
    (mm.runOnce env configs).findModelByName name = none ∧
    (mm.runOnce env configs).modelExists name = false ∧
    ∀ version, (mm.runOnce env configs).findModelInstance name version = none := by
  have hnone : (mm.runOnce env configs).findModelByName name = none := by
    unfold ModelManager.runOnce
    exact findModelByName_retire_not_mem env _ _ name h
  refine ⟨hnone, ?_, ?_⟩
  · simp [ModelManager.modelExists, hnone]
  · intro version
    simp [ModelManager.findModelInstance, hnone]

/-- Witness for C6: a pass whose configuration no longer lists `"resnet"`
leaves the concrete registry with no trace of it. -/
theorem runOnce_retires_removed_models_witness :
    (sampleManager.runOnce missingConfigEnv []).findModelByName "resnet" = none :=
  (runOnce_retires_removed_models missingConfigEnv sampleManager [] "resnet" (by decide)).1

theorem find?_eq_of_mem_nodup {β : Type} (l : List (model_version_t × β))
    (p : model_version_t × β) (hnd : (l.map Prod.fst).Nodup) (hmem : p ∈ l) :
    l.find? (fun q => decide (q.1 = p.1)) = some p := by
  induction l with
  | nil => exact absurd hmem (List.not_mem_nil p)
  | cons q l ih =>
    have hnd' := List.nodup_cons.mp (by rw [List.map_cons] at hnd; exact hnd)
    rcases List.mem_cons.mp hmem with rfl | hmem'
    · rw [List.find?_cons_of_pos _ (by simp)]
    · have hne : q.1 ≠ p.1 := by
        intro hh
        exact hnd'.1 (by rw [hh]; exact List.mem_map_of_mem Prod.fst hmem')
      rw [List.find?_cons_of_neg _ (by simp [hne]), ih hnd'.2 hmem']

theorem mem_keys_applyVersionChanges (env : Environment) (config : ModelConfig)
    (instances : List (model_version_t × ModelInstance)) (changes : VersionChanges)
    (v : model_version_t) :
    v ∈ (applyVersionChanges env config instances changes).map Prod.fst ↔
      ((v ∈ instances.map Prod.fst ∧ v ∉ changes.toRetire) ∨ v ∈ changes.toStart) := by
  unfold applyVersionChanges
  rw [List.map_append, List.mem_append]
  constructor
  · rintro (hk | hs)
    · rcases List.mem_map.mp hk with ⟨p, hp, hpv⟩
      rcases List.mem_map.mp hp with ⟨q, hq, hqp⟩
      rcases List.mem_filter.mp hq with ⟨hqmem, hqkeep⟩
      have hq1 : p.1 = q.1 := by
        rw [← hqp]
        by_cases hr : q.1 ∈ changes.toReload <;> simp [hr]
      left
      constructor
      · rw [← hpv, hq1]
        exact List.mem_map_of_mem Prod.fst hqmem
      · rw [← hpv, hq1]
        simpa using hqkeep
    · right
      rcases List.mem_map.mp hs with ⟨p, hp, hpv⟩
      rcases List.mem_map.mp hp with ⟨w, hw, hwp⟩
      have : p.1 = w := by rw [← hwp]
      rw [← hpv, this]
      exact hw
  · rintro (⟨hcur, hnr⟩ | hs)
    · left
      rcases List.mem_map.mp hcur with ⟨q, hq, hq1⟩
      refine List.mem_map.mpr
        ⟨if q.1 ∈ changes.toReload then (q.1, loadInstance env config q.1) else q, ?_, ?_⟩
      · refine List.mem_map.mpr ⟨q, List.mem_filter.mpr ⟨hq, ?_⟩, rfl⟩
        simpa [hq1] using hnr
      · by_cases hr : q.1 ∈ changes.toReload
        · rw [if_pos hr]
          exact hq1
        · rw [if_neg hr]
          exact hq1
    · right
      exact List.mem_map.mpr ⟨(v, loadInstance env config v), List.mem_map.mpr ⟨v, hs, rfl⟩, rfl⟩

theorem applyVersionChanges_config_eq (env : Environment) (config : ModelConfig)
    (instances : List (model_version_t × ModelInstance)) (req : List model_version_t)
    (hnd : (instances.map Prod.fst).Nodup) :
    ∀ p ∈ applyVersionChanges env config instances (getVersionsToChange config instances req),
      p.2.config = config := by
  intro p hp
  unfold applyVersionChanges at hp
  rcases List.mem_append.mp hp with hk | hs
  · rcases List.mem_map.mp hk with ⟨q, hq, hgq⟩
    rcases List.mem_filter.mp hq with ⟨hqmem, hqkeep⟩
    by_cases hr : q.1 ∈ (getVersionsToChange config instances req).toReload
    · rw [← hgq, if_pos hr]
      rfl
    · rw [← hgq, if_neg hr]
      have hcur : q.1 ∈ instances.map Prod.fst := List.mem_map_of_mem Prod.fst hqmem
      have hkeep' : q.1 ∉ (getVersionsToChange config instances req).toRetire := by
        simpa using hqkeep
      have hreq : q.1 ∈ req := by
        by_contra hnr
        exact hkeep' ((mem_toRetire config instances req q.1).mpr ⟨hcur, hnr⟩)
      have hfind := find?_eq_of_mem_nodup instances q hnd hqmem
      rw [mem_toReload config instances req q.1] at hr
      have hnm : ¬ ((match instances.find? (fun p => decide (p.1 = q.1)) with
          | some p => isReloadRequired config p.2
          | none => false) = true) := fun hmatch => hr ⟨hreq, hmatch⟩
      simp only [hfind] at hnm
      unfold isReloadRequired at hnm
      simpa using hnm
  · rcases List.mem_map.mp hs with ⟨w, _, hwp⟩
    rw [← hwp]
    rfl

theorem applyVersionChanges_empty_requested_empty (env : Environment) (config : ModelConfig)
    (instances : List (model_version_t × ModelInstance)) (req : List model_version_t)
    (h : applyVersionChanges env config instances (getVersionsToChange config instances req) = []) :
    req = [] := by
  unfold applyVersionChanges at h
  rcases List.append_eq_nil.mp h with ⟨hkept, hstart⟩
  have hstart' : (getVersionsToChange config instances req).toStart = [] :=
    List.map_eq_nil_iff.mp hstart
  have hkept' : instances.filter
      (fun p => !(decide (p.1 ∈ (getVersionsToChange config instances req).toRetire))) = [] :=
    List.map_eq_nil_iff.mp hkept
  rw [List.eq_nil_iff_forall_not_mem]
  intro v hv
  have hcur : v ∈ instances.map Prod.fst := by
    by_contra hnc
    have hmem : v ∈ (getVersionsToChange config instances req).toStart :=
      (mem_toStart config instances req v).mpr ⟨hv, hnc⟩
    rw [hstart'] at hmem
    exact List.not_mem_nil v hmem
  rcases List.mem_map.mp hcur with ⟨p, hpmem, hp1⟩
  have hdrop := List.filter_eq_nil_iff.mp hkept' p hpmem
  have hret : p.1 ∈ (getVersionsToChange config instances req).toRetire := by
    simpa using hdrop
  have hboth := (mem_toRetire config instances req p.1).mp hret
  rw [hp1] at hboth
  exact hboth.2 hv

theorem getVersionsToChange_after_apply (env : Environment) (config : ModelConfig)
    (instances : List (model_version_t × ModelInstance)) (req : List model_version_t)
    (hnd : (instances.map Prod.fst).Nodup) :
    (getVersionsToChange config
      (applyVersionChanges env config instances (getVersionsToChange config instances req))
      req).toRetire = [] ∧
    (getVersionsToChange config
      (applyVersionChanges env config instances (getVersionsToChange config instances req))
      req).toReload = [] ∧
    (getVersionsToChange config
      (applyVersionChanges env config instances (getVersionsToChange config instances req))
      req).toStart = [] := by
  refine ⟨?_, ?_, ?_⟩
  · rw [List.eq_nil_iff_forall_not_mem]
    intro v hv
    rcases (mem_toRetire config _ req v).mp hv with ⟨hkeys, hnreq⟩
    rcases (mem_keys_applyVersionChanges env config instances _ v).mp hkeys with ⟨hcur, hnr⟩ | hs
    · exact hnr ((mem_toRetire config instances req v).mpr ⟨hcur, hnreq⟩)
    · exact hnreq ((mem_toStart config instances req v).mp hs).1
  · rw [List.eq_nil_iff_forall_not_mem]
    intro v hv
    rcases (mem_toReload config _ req v).mp hv with ⟨hreq, hmatch⟩
    cases hf : (applyVersionChanges env config instances
        (getVersionsToChange config instances req)).find? (fun p => decide (p.1 = v)) with
    | none => rw [hf] at hmatch; exact Bool.noConfusion hmatch
    | some p =>
      rw [hf] at hmatch
      have hpmem := List.mem_of_find?_eq_some hf
      have hcfg := applyVersionChanges_config_eq env config instances req hnd p hpmem
      simp [isReloadRequired, hcfg] at hmatch
  · rw [List.eq_nil_iff_forall_not_mem]
    intro v hv
    rcases (mem_toStart config _ req v).mp hv with ⟨hreq, hnkeys⟩
    refine hnkeys ((mem_keys_applyVersionChanges env config instances _ v).mpr ?_)
    by_cases hcur : v ∈ instances.map Prod.fst
    · left
      refine ⟨hcur, fun hret => ?_⟩
      exact ((mem_toRetire config instances req v).mp hret).2 hreq
    · right
      exact (mem_toStart config instances req v).mpr ⟨hreq, hcur⟩

theorem reconcileResult_second_diff_empty (env : Environment) (config : ModelConfig)
    (entry : Option Model) (discovered : List model_version_t)
    (hdisk : env.availableVersions config.basePath = some discovered)
    (hnd : ∀ model, entry = some model → (model.instances.map Prod.fst).Nodup) :
    (getVersionsToChange config
      ((reconcileResult env entry config).getD { name := config.name, instances := [] }).instances
      (requestedFromPolicy config discovered)).toRetire = [] ∧
    (getVersionsToChange config
      ((reconcileResult env entry config).getD { name := config.name, instances := [] }).instances
      (requestedFromPolicy config discovered)).toReload = [] ∧
    (getVersionsToChange config
      ((reconcileResult env entry config).getD { name := config.name, instances := [] }).instances
      (requestedFromPolicy config discovered)).toStart = [] := by
  have hmodelnd :
      (((entry.getD { name := config.name, instances := [] }).instances).map Prod.fst).Nodup := by
    cases entry with
    | none => simp
    | some m => exact hnd m rfl
  have hrc : reconcileResult env entry config =
      (if (applyVersionChanges env config
            (entry.getD { name := config.name, instances := [] }).instances
            (getVersionsToChange config
              (entry.getD { name := config.name, instances := [] }).instances
              (requestedFromPolicy config discovered))).isEmpty
       then none
       else some { entry.getD { name := config.name, instances := [] } with
          instances := applyVersionChanges env config
            (entry.getD { name := config.name, instances := [] }).instances
            (getVersionsToChange config
              (entry.getD { name := config.name, instances := [] }).instances
              (requestedFromPolicy config discovered)) }) := by
    unfold reconcileResult
    rw [hdisk]
  by_cases hempty : (applyVersionChanges env config
      (entry.getD { name := config.name, instances := [] }).instances
      (getVersionsToChange config (entry.getD { name := config.name, instances := [] }).instances
        (requestedFromPolicy config discovered))).isEmpty
  · have hreq : requestedFromPolicy config discovered = [] := by
      apply applyVersionChanges_empty_requested_empty env config
        (entry.getD { name := config.name, instances := [] }).instances
      exact List.isEmpty_iff.mp hempty
    rw [hrc, if_pos hempty]
    simp only [Option.getD_none]
    rw [hreq]
    exact ⟨rfl, rfl, rfl⟩
  · rw [hrc, if_neg hempty]
    simp only [Option.getD_some]
    exact getVersionsToChange_after_apply env config
      (entry.getD { name := config.name, instances := [] }).instances
      (requestedFromPolicy config discovered) hmodelnd

/-- C4: after one reconciliation pass completes, a second pass with the same
configuration and the same set of on-disk versions computes empty `toStart`,
`toReload` and `toRetire` sets for every configured model: the second pass
performs zero lifecycle actions. -/
theorem second_pass_produces_no_actions (env : Environment) (mm : ModelManager)
    (configs : List ModelConfig) (config : ModelConfig) (discovered : List model_version_t)
    (hmem : config ∈ configs)
    (hnodup : (configs.map (fun c => c.name)).Nodup)
    (hdisk : env.availableVersions config.basePath = some discovered)
    (hnd : ∀ model, mm.findModelByName config.name = some model →
      (model.instances.map Prod.fst).Nodup) :
    (getVersionsToChange config
      (((mm.runOnce env configs).findModelByName config.name).getD
        { name := config.name, instances := [] }).instances
      (requestedFromPolicy config discovered)).toRetire = [] ∧
    (getVersionsToChange config
      (((mm.runOnce env configs).findModelByName config.name).getD
        { name := config.name, instances := [] }).instances
      (requestedFromPolicy config discovered)).toReload = [] ∧
    (getVersionsToChange config
      (((mm.runOnce env configs).findModelByName config.name).getD
        { name := config.name, instances := [] }).instances
      (requestedFromPolicy config discovered)).toStart = [] := by
  rw [findModelByName_runOnce_mem env mm configs config hmem hnodup]
  exact reconcileResult_second_diff_empty env config (mm.findModelByName config.name)
    discovered hdisk hnd

/-- Witness for C4 at a concrete pass: one configured model, version 1 on
disk, served by the concrete registry. -/
theorem second_pass_produces_no_actions_witness :
    (getVersionsToChange sampleConfig
      (((sampleManager.runOnce missingConfigEnv [sampleConfig]).findModelByName
          sampleConfig.name).getD
        { name := sampleConfig.name, instances := [] }).instances
      (requestedFromPolicy sampleConfig [1])).toRetire = [] ∧
    (getVersionsToChange sampleConfig
      (((sampleManager.runOnce missingConfigEnv [sampleConfig]).findModelByName
          sampleConfig.name).getD
        { name := sampleConfig.name, instances := [] }).instances
      (requestedFromPolicy sampleConfig [1])).toReload = [] ∧
    (getVersionsToChange sampleConfig
      (((sampleManager.runOnce missingConfigEnv [sampleConfig]).findModelByName
          sampleConfig.name).getD
        { name := sampleConfig.name, instances := [] }).instances
      (requestedFromPolicy sampleConfig [1])).toStart = [] :=
  second_pass_produces_no_actions missingConfigEnv sampleManager [sampleConfig] sampleConfig [1]
    (by decide) (by decide) rfl
    (by
      intro model h
      rw [show sampleManager.findModelByName sampleConfig.name = some sampleModel from rfl] at h
      cases h
      decide)

